import Mathlib

/-!
Verification of the assemblyline-core scaler (`assemblyline_core/scaler/scaler_server.py`).

This file gives a shallow embedding of the scaling control loop:
  * `ServiceProfile` and its pressure-based `update` algorithm
    (lines 80-174 of scaler_server.py); Python floats are modelled as real
    numbers, Python ints as `Nat`/`Int`, and the two fallible operations in
    `update` (the `backlog / self.backlog` division and `math.sqrt`) are
    modelled with `Except`;
  * the error tracker `handle_service_error` (lines 485-503), over the plain
    dict `error_count` initialised at line 184;
  * the stray-profile removal of `sync_services` (lines 382-385);
  * the `pool.submit` call of `process_timeouts` (line 581) together with a
    model of Python keyword-argument binding;
  * the zero-instance synthetic update of `sync_metrics` (lines 536-547);
  * the three-phase allocator `update_scaling` (lines 406-483) over a
    controller state, with CPU/RAM budgets as rationals.

Fields the claims never read (the opaque container config, config hash,
queue handle, shutdown seconds) are omitted from the profile record.
-/

namespace Scaler

/-- `MAXIMUM_SERVICE_ERRORS` (scaler_server.py line 42). -/
def MAXIMUM_SERVICE_ERRORS : ℕ := 5

/-- `ERROR_EXPIRY_TIME` in seconds (scaler_server.py line 43). -/
def ERROR_EXPIRY_TIME : ℚ := 60 * 60

/-- The Python exceptions the embedded fragments can raise. -/
inductive PyError where
  | zeroDivisionError : PyError
  | mathDomainError : PyError
  | keyError : PyError
deriving DecidableEq

/-- Per-service controller state, mirroring `ServiceProfile.__init__`
(scaler_server.py lines 97-120).  `maxInstancesCap` is `_max_instances`
with `none` standing for `float('inf')`; floats are modelled as `ℝ`,
`self.backlog` (`int(backlog)`) as `ℤ`. -/
structure ServiceProfile where
  name : String
  /-- `self._min_instances` -/
  minInstancesFloor : ℕ
  /-- `self.min_instances` -/
  minInstances : ℕ
  /-- `self._max_instances`; `none` is `float('inf')` -/
  maxInstancesCap : Option ℕ
  /-- `self.desired_instances` -/
  desiredInstances : ℕ
  /-- `self.running_instances` -/
  runningInstances : ℕ
  /-- `self.pressure` -/
  pressure : ℝ
  /-- `self.growth_threshold` -/
  growthThreshold : ℝ
  /-- `self.shrink_threshold` -/
  shrinkThreshold : ℝ
  /-- `self.leak_rate` -/
  leakRate : ℝ
  /-- `self.backlog` (the backlog reference, line 117) -/
  backlogRef : ℤ
  /-- `self.queue_length` -/
  queueLength : ℕ
  /-- `self.duty_cycle` -/
  dutyCycle : ℝ
  /-- `self.last_update` -/
  lastUpdate : ℝ
  /-- `self.target_duty_cycle` -/
  targetDutyCycle : ℝ

/-- The derived `max_instances` property (scaler_server.py lines 136-140):
`min(self._max_instances, running + 2)`. -/
def maxInstancesDerived (cap : Option ℕ) (running : ℕ) : ℕ :=
  match cap with
  | none => running + 2
  | some c => min c (running + 2)

/-- `ServiceProfile.max_instances` on the current record. -/
def ServiceProfile.maxInstances (p : ServiceProfile) : ℕ :=
  maxInstancesDerived p.maxInstancesCap p.runningInstances

/-- `ServiceProfile.__init__` (scaler_server.py lines 85-120).
`minInstances` is `max(0, int(min_instances))`; `maxInstances = none` is the
Python default `None` and `some 0` is falsy as well, both giving the cap
`float('inf')`; `shrink = none` gives `-growth_threshold/2`;
`target_duty_cycle` is pinned to `0.9` and `leak_rate` to `0.1`. -/
noncomputable def ServiceProfile.init (name : String) (minInstances : ℤ) (maxInstances : Option ℤ)
    (growth : ℝ) (shrink : Option ℝ) (backlog : ℤ) : ServiceProfile :=
  { name := name
    minInstancesFloor := (max 0 minInstances).toNat
    minInstances := (max 0 minInstances).toNat
    maxInstancesCap :=
      match maxInstances with
      | none => none
      | some v => if v = 0 then none else some (max 0 v).toNat
    desiredInstances := 0
    runningInstances := 0
    pressure := 0
    growthThreshold := |growth|
    shrinkThreshold :=
      match shrink with
      | none => -|growth| / 2
      | some s => -|s|
    leakRate := 0.1
    backlogRef := backlog
    queueLength := 0
    dutyCycle := 0
    lastUpdate := 0
    targetDutyCycle := 0.9 }

/-- `ServiceProfile.update(delta, instances, backlog, duty_cycle)`
(scaler_server.py lines 142-174).  `now` stands for `time.time()`.
The guards model the exceptions Python can raise on line 154
(`ZeroDivisionError` when `self.backlog == 0`, `ValueError` from
`math.sqrt` on a negative quotient) and on line 157 (`ZeroDivisionError`
when `target_duty_cycle == 0`, unreachable for constructed profiles). -/
noncomputable def ServiceProfile.update (p : ServiceProfile) (now delta : ℝ)
    (instances backlog : ℕ) (dutyCycle : ℝ) : Except PyError ServiceProfile :=
  if p.backlogRef = 0 then .error .zeroDivisionError
  else if ((backlog : ℝ) / (p.backlogRef : ℝ)) < 0 then .error .mathDomainError
  else if p.targetDutyCycle = 0 then .error .zeroDivisionError
  else
    -- line 150: min_instances = max(_min_instances, int(bool(backlog)))
    let minI := max p.minInstancesFloor (if backlog = 0 then 0 else 1)
    -- max_instances re-derived with running_instances = instances (line 144)
    let maxI := maxInstancesDerived p.maxInstancesCap instances
    -- line 151: clamp desired between the new min and the derived max
    let des0 := max minI (min maxI p.desiredInstances)
    -- lines 154-157: backlog pressure and duty-cycle pressure
    let pr0 := p.pressure + delta * Real.sqrt ((backlog : ℝ) / (p.backlogRef : ℝ))
        - delta * (p.targetDutyCycle - dutyCycle) / p.targetDutyCycle
    -- lines 160-161: leak toward zero (math.copysign)
    let leak := min (p.leakRate * delta) |pr0|
    let pr1 := if pr0 < 0 then -(|pr0| - leak) else |pr0| - leak
    -- lines 165-166: no negative build-up at the minimum
    let pr2 := if des0 = minI then max 0 pr1 else pr1
    -- lines 168-170: growth threshold
    let des1 := if p.growthThreshold ≤ pr2 then min maxI (des0 + 1) else des0
    let pr3 := if p.growthThreshold ≤ pr2 then (0 : ℝ) else pr2
    -- lines 172-174: shrink threshold
    let des2 := if pr3 ≤ p.shrinkThreshold then max minI (des1 - 1) else des1
    let pr4 := if pr3 ≤ p.shrinkThreshold then (0 : ℝ) else pr3
    .ok { p with
      lastUpdate := now
      runningInstances := instances
      queueLength := backlog
      dutyCycle := dutyCycle
      minInstances := minI
      desiredInstances := des2
      pressure := pr4 }

/-- The invariant claimed for a profile after `update`: the bounds on
`desired_instances` (with `max_instances` re-derived) and nonnegative
pressure at the minimum. -/
def profileInvariant (p : ServiceProfile) : Prop :=
  p.minInstances ≤ p.desiredInstances ∧
  p.desiredInstances ≤ p.maxInstances ∧
  (p.desiredInstances = p.minInstances → 0 ≤ p.pressure)

/-- The invariant, stated about the result of a (fallible) `update` call. -/
def invariantAfter (r : Except PyError ServiceProfile) : Prop :=
  ∀ p, r = .ok p → profileInvariant p

/-- Repeated `update` calls with `backlog = 0`,
`duty_cycle = target_duty_cycle` and `instances = min_instances`,
one per element of `ds` (the `delta` of each call). -/
noncomputable def updateIdleFold : ServiceProfile → List ℝ → Except PyError ServiceProfile
  | p, [] => .ok p
  | p, d :: ds =>
    match p.update 0 d p.minInstances 0 p.targetDutyCycle with
    | .error e => .error e
    | .ok q => updateIdleFold q ds

/-! ## Error tracker (`ScalerServer.handle_service_error`, lines 485-503)

`self.error_count` is created at line 184 as the *plain* dict `{}` of type
`Dict[str, List[float]]`.  A Python dict is modelled as an insertion-ordered
association list; timestamps are rationals. -/

/-- The `error_count` dict: service name to error timestamps. -/
abbrev ErrorCounts := List (String × List ℚ)

/-- Replace the value stored under `k`, keeping dict order. -/
def setKey (m : ErrorCounts) (k : String) (v : List ℚ) : ErrorCounts :=
  m.map fun e => if e.1 = k then (k, v) else e

/-- `del d[k]`. -/
def eraseKey (m : ErrorCounts) (k : String) : ErrorCounts :=
  m.filter fun e => e.1 != k

/-- `ScalerServer.handle_service_error(service_name)` (lines 485-503).
Returns the new `error_count` together with the list of datastore writes
made (`(name, false)` models
`service_delta.update(name, [(UPDATE_SET, 'enabled', False)])`).
`self.error_count[service_name].append(...)` on line 493 raises `KeyError`
when the dict has no entry for the service. -/
def handleServiceError (counts : ErrorCounts) (now : ℚ) (name : String) :
    Except PyError (ErrorCounts × List (String × Bool)) :=
  match counts.lookup name with
  | none => .error .keyError
  | some ts =>
    -- line 493 appends now, lines 494-497 prune to the expiry window
    let ts1 := (ts ++ [now]).filter fun t => decide (now - ERROR_EXPIRY_TIME ≤ t)
    if MAXIMUM_SERVICE_ERRORS ≤ ts1.length then
      .ok (eraseKey (setKey counts name ts1) name, [(name, false)])
    else
      .ok (setKey counts name ts1, [])

/-! ## Stray-profile removal in `sync_services` (lines 290-387)

`current_services = set(self.profiles.keys())` is read once before the
catalog loop (lines 295-296); `discovered_services` grows by one name per
iteration (line 304).  The stray block (lines 382-385) is indented *inside*
the per-service loop, so after the `i`-th service it stops every name in
`current_services - set(discovered_services[:i+1])`. -/

/-- The sequence of `stop_service` calls the stray block makes during one
`sync_services` cycle, as written (nested inside the catalog loop). -/
def strayStopsNested (currentServices catalog : List String) : List String :=
  (((List.range catalog.length).map fun i =>
    currentServices.filter fun s => !(catalog.take (i + 1)).contains s)).flatten

/-- The stray removal as the claim states it: run once, after the whole
per-service pass, against the complete catalog listing. -/
def strayStopsOnce (currentServices catalog : List String) : List String :=
  currentServices.filter fun s => !catalog.contains s

/-! ## `process_timeouts` (lines 563-581) and Python call binding

Line 581 reads `pool.submit(fn=self.controller.stop_container,
args=(message['service'], message['container']))`.  Passing `fn` by keyword
makes `submit`'s own `*args` empty and puts `args=(…)` into its
`**kwargs`, so the pool eventually invokes
`stop_container(args=(service, container))` — one keyword argument named
`args`, no positional arguments. -/

/-- A Python value as far as this call is concerned. -/
inductive PyVal where
  | str : String → PyVal
  /-- a 2-tuple of strings -/
  | strPair : String → String → PyVal
deriving DecidableEq

/-- A call submitted to a worker pool: positional and keyword arguments. -/
structure Submission where
  pos : List PyVal
  kw : List (String × PyVal)

/-- CPython argument binding for a function whose parameters `params` are
all positional-or-keyword with no defaults: the bound environment, or
`none` for a `TypeError` (unexpected or duplicate keyword, or a parameter
left without a value). -/
def bindCall (params : List String) (pos : List PyVal) (kw : List (String × PyVal)) :
    Option (List (String × PyVal)) :=
  if pos.length ≤ params.length
      ∧ (∀ k ∈ kw.map Prod.fst, k ∈ params.drop pos.length)
      ∧ (∀ q ∈ params.drop pos.length, (kw.lookup q).isSome)
      ∧ (kw.map Prod.fst).Nodup
  then some ((params.take pos.length).zip pos ++ kw)
  else none

/-- Modelled from the spec: `controller.stop_container(service, container)`
(spec section 6); `assemblyline_core/scaler/controllers/` is not under
src/, so the parameter list of `stop_container` is taken from the spec's
interface description. -/
def stopContainerParams : List String :=
  ["service", "container"]

/-- The keyword name `args` that line 581 passes to `submit`. -/
def argsKeyword : String := "args"

/-- The invocation of `stop_container` that line 581 actually produces for
a popped message `{service, container}`. -/
def timeoutSubmission (service container : String) : Submission :=
  { pos := [], kw := [(argsKeyword, PyVal.strPair service container)] }

/-- The invocation the claim describes: `stop_container(service, container)`
with the two values positional. -/
def claimSubmission (service container : String) : Submission :=
  { pos := [PyVal.str service, PyVal.str container], kw := [] }

/-! ## Zero-instance synthetic update in `sync_metrics` (lines 536-547)

The guard is `controller.get_target(name) == 0 and desired_instances == 0
and profile.queue` — the last conjunct is the truthiness of the queue
*handle* (a non-`None` check; profiles may be built with `queue=None`).
When it holds, `profile.update(delta=export_interval, instances=0,
backlog=queue.length(), duty_cycle=target_duty_cycle)` is called
unconditionally; `queue_length > 0` only gates a log line. -/

/-- The synthetic `update` call (its `delta`, `instances`, `backlog`,
`duty_cycle` arguments) one `sync_metrics` tick makes for a profile, given
the controller target, `desired_instances`, and the queue handle
(`none` = no queue; `some n` = a queue of current length `n`). -/
def syntheticUpdate (exportInterval tdc : ℚ) (target desired : ℕ)
    (queue : Option ℕ) : Option (ℚ × ℕ × ℕ × ℚ) :=
  if target = 0 ∧ desired = 0 ∧ queue.isSome then
    some (exportInterval, 0, queue.getD 0, tdc)
  else none

/-- The condition the claim states for the synthetic update: target and
desired both zero and the queue *non-empty*. -/
def claimSyntheticCond (target desired : ℕ) (queue : Option ℕ) : Prop :=
  target = 0 ∧ desired = 0 ∧ 0 < queue.getD 0

/-! ## The allocator (`ScalerServer.update_scaling`, lines 406-483)

One tick operates on the profile map (the fields it reads: name,
`desired_instances`, `min_instances`, and the container config's
`cpu_cores` and `ram_mb`, modelled as rationals) and on the controller
(its per-service targets and its free CPU/memory pool).  `pool.call`ed
`set_target` writes are modelled as applied in program order; they all
drain before the next `get_target` read, which matches the code's pool
scoping (phases 1-2 share one `with pool:` block that closes before
`free_cpu()` is read, and no `set_target` is issued during phase 3 until
the final dispatch block). -/

/-- The slice of a `ServiceProfile` that `update_scaling` reads. -/
structure AllocProfile where
  name : String
  desiredInstances : ℕ
  minInstances : ℕ
  /-- `container_config.cpu_cores` -/
  cpu : ℚ
  /-- `container_config.ram_mb` -/
  ram : ℚ

/-- The controller as the allocator sees it: persisted per-service targets
plus the cluster-wide free resource pool. -/
structure Controller where
  target : String → ℕ
  freeCpu : ℚ
  freeMemory : ℚ

/-- The local `targets` dict, keyed by profile name. -/
abbrev Targets := String → ℕ

/-- Point update of a `targets` map. -/
def updT (t : Targets) (s : String) (v : ℕ) : Targets :=
  fun x => if x = s then v else t x

/-- `controller.set_target(name, value)`. -/
def Controller.setTarget (c : Controller) (s : String) (v : ℕ) : Controller :=
  { c with target := updT c.target s v }

/-- State threaded through one allocator phase: the controller (with the
writes issued so far applied), the local `targets` map, and the list of
`set_target` writes issued, in order. -/
structure PhaseState where
  ctrl : Controller
  targets : Targets
  writes : List (String × ℕ)

/-- Phase 1 (lines 424-430): every profile with `targets[name] >
desired_instances` is shrunk to `desired_instances`. -/
def phase1 : List AllocProfile → Controller → Targets → PhaseState
  | [], ctrl, targets => ⟨ctrl, targets, []⟩
  | p :: rest, ctrl, targets =>
    if p.desiredInstances < targets p.name then
      let s := phase1 rest (ctrl.setTarget p.name p.desiredInstances)
          (updT targets p.name p.desiredInstances)
      ⟨s.ctrl, s.targets, (p.name, p.desiredInstances) :: s.writes⟩
    else phase1 rest ctrl targets

/-- Phase 2 (lines 436-441): every profile with `targets[name] <
min_instances` is raised to `min_instances`. -/
def phase2 : List AllocProfile → Controller → Targets → PhaseState
  | [], ctrl, targets => ⟨ctrl, targets, []⟩
  | p :: rest, ctrl, targets =>
    if targets p.name < p.minInstances then
      let s := phase2 rest (ctrl.setTarget p.name p.minInstances)
          (updT targets p.name p.minInstances)
      ⟨s.ctrl, s.targets, (p.name, p.minInstances) :: s.writes⟩
    else phase2 rest ctrl targets

/-- The local `trim` function (lines 453-460): keep profiles that still
want more instances than their target and whose one-replica cost fits in
the remaining free resources (comparisons use `≤`). -/
def trim (targets : Targets) (freeCpu freeMem : ℚ) (prof : List AllocProfile) :
    List AllocProfile :=
  (prof.filter fun p => decide (targets p.name < p.desiredInstances)).filter
    fun p => decide (p.cpu ≤ freeCpu ∧ p.ram ≤ freeMem)

/-- Result of phase 3: final `targets`, remaining free resources, and the
`(cpu, ram)` cost of each replica granted, in grant order (bookkeeping the
code does implicitly through its `free_cpu`/`free_memory` decrements). -/
structure Phase3Result where
  targets : Targets
  freeCpu : ℚ
  freeMemory : ℚ
  grants : List (ℚ × ℚ)

/-- The phase-3 `while profiles:` loop (lines 464-475).  `current` is the
already-trimmed candidate list; each pass stable-sorts by the *live*
controller target (`profiles.sort(key=...get_target...)` — the controller
is not written during the loop), grants one replica to the front
candidate, then re-trims.  `fuel` bounds the iterations; the loop body
runs at most `Σ desired` times, so any fuel at least that large gives the
exact semantics. -/
def phase3Loop (ctrl : Controller) :
    ℕ → List AllocProfile → Targets → ℚ → ℚ → List (ℚ × ℚ) → Phase3Result
  | _, [], targets, fc, fm, grants => ⟨targets, fc, fm, grants⟩
  | 0, _ :: _, targets, fc, fm, grants => ⟨targets, fc, fm, grants⟩
  | fuel + 1, p :: rest, targets, fc, fm, grants =>
    match (p :: rest).mergeSort
        (fun a b => decide (ctrl.target a.name ≤ ctrl.target b.name)) with
    | [] => ⟨targets, fc, fm, grants⟩
    | h :: t =>
      let fm1 := fm - h.ram
      let fc1 := fc - h.cpu
      let targets1 := updT targets h.name (targets h.name + 1)
      phase3Loop ctrl fuel (trim targets1 fc1 fm1 (h :: t)) targets1 fc1 fm1
        (grants ++ [(h.cpu, h.ram)])

/-- Phase 3 (lines 449-475): read the free pool, trim, and loop. -/
def phase3 (fuel : ℕ) (profiles : List AllocProfile) (ctrl : Controller)
    (targets : Targets) : Phase3Result :=
  phase3Loop ctrl fuel (trim targets ctrl.freeCpu ctrl.freeMemory profiles)
    targets ctrl.freeCpu ctrl.freeMemory []

/-- The final dispatch (lines 478-483): for each name of the `targets`
dict (its keys are the profile names, in profile order), compare with the
live controller target and write when different. -/
def finalDispatch : List AllocProfile → Controller → Targets →
    Controller × List (String × ℕ)
  | [], ctrl, _ => (ctrl, [])
  | p :: rest, ctrl, targets =>
    if targets p.name = ctrl.target p.name then finalDispatch rest ctrl targets
    else
      let r := finalDispatch rest (ctrl.setTarget p.name (targets p.name)) targets
      (r.1, (p.name, targets p.name) :: r.2)

/-- One full allocator tick (lines 406-483): snapshot targets, run the
three phases, dispatch the changes.  The returned controller carries the
targets as written and the free pool diminished by exactly the replicas
granted in phase 3 — i.e. the state the tick itself leaves behind, with
no external change. -/
def updateScaling (fuel : ℕ) (profiles : List AllocProfile) (ctrl : Controller) :
    Controller × List (String × ℕ) :=
  let s1 := phase1 profiles ctrl ctrl.target
  let s2 := phase2 profiles s1.ctrl s1.targets
  let r3 := phase3 fuel profiles s2.ctrl s2.targets
  let fin := finalDispatch profiles s2.ctrl r3.targets
  (⟨fin.1.target, r3.freeCpu, r3.freeMemory⟩,
    s1.writes ++ s2.writes ++ fin.2)

/-- Stepwise feasibility of a grant list against an initial free pool:
each grant fits in what remains when it is made. -/
def GrantsFeasible : ℚ → ℚ → List (ℚ × ℚ) → Prop
  | _, _, [] => True
  | fc, fm, g :: rest => g.1 ≤ fc ∧ g.2 ≤ fm ∧ GrantsFeasible (fc - g.1) (fm - g.2) rest

/-! ## Concrete objects used by the theorems -/

/-- A service name. -/
def svcA : String := "A"

/-- Another service name. -/
def svcB : String := "B"

/-- A generic analysis-service name. -/
def svcName : String := "svc"

/-- A container name. -/
def contName : String := "c0"

/-- Allocator profile exhibiting `min_instances > desired_instances`:
one replica required, none desired. -/
def cexProfile : AllocProfile :=
  { name := svcA, desiredInstances := 0, minInstances := 1, cpu := 0, ram := 0 }

/-- A controller with all targets at zero and an empty free pool. -/
def cexCtrl : Controller :=
  { target := fun _ => 0, freeCpu := 0, freeMemory := 0 }

/-! ## Theorems -/

/-- Claim C2: the code contradicts the claimed behaviour — `error_count`
is a plain dict created empty (line 184), so the very first
`handle_service_error` for a never-seen service raises `KeyError` at line
493 instead of appending the timestamp; the five-errors-then-disable
behaviour is unreachable for a fresh service name. -/
theorem c2_first_report_keyerror :
    handleServiceError [] 0 svcName = .error .keyError := rfl

/-- Claim C3: the code contradicts the claim — the stray-removal block is
nested inside the per-service loop, so with running profiles `{A, B}` and
the catalog listing `[A, B]`, the pass after `A`'s iteration stops `B`
even though `B` is in the catalog; the once-per-cycle removal the claim
describes would stop nothing. -/
theorem c3_nested_stray_stops_listed_service :
    strayStopsNested [svcA, svcB] [svcA, svcB] = [svcB] ∧
    svcB ∈ [svcA, svcB] ∧
    strayStopsOnce [svcA, svcB] [svcA, svcB] = [] := by decide

/-- Claim C4: the code contradicts the claim — for a popped timeout
message the pool invocation produced by
`pool.submit(fn=self.controller.stop_container, args=(service, container))`
carries no positional arguments and the single keyword `args`, which does
not bind to `stop_container(service, container)` (a `TypeError`), while
the call the claim describes binds fine; `stop_container` is therefore
never executed with the message's service and container. -/
theorem c4_submit_binding_fails :
    bindCall stopContainerParams (timeoutSubmission svcName contName).pos
      (timeoutSubmission svcName contName).kw = none ∧
    (bindCall stopContainerParams (claimSubmission svcName contName).pos
      (claimSubmission svcName contName).kw).isSome = true := by decide

/-- Claim C9 (counterexample): a profile whose queue handle exists but is
empty (length 0), with controller target 0 and desired 0, does receive a
synthetic update (with backlog 0) even though the claim's condition
(queue non-empty) fails. -/
theorem c9_counterexample :
    (syntheticUpdate 1 1 0 0 (some 0)).isSome = true ∧
    ¬ claimSyntheticCond 0 0 (some 0) := by
  exact ⟨rfl, fun h => by simpa using h.2.2⟩

/-- Claim C9 (amended): the synthetic update is made exactly when the
controller target is 0, `desired_instances` is 0 and the profile has a
queue handle (which may be empty); when made, its arguments are
`delta = export_interval`, `instances = 0`, `backlog = queue length`,
`duty_cycle = target_duty_cycle`. -/
theorem c9_amended (ei tdc : ℚ) (target desired : ℕ) (queue : Option ℕ) :
    ((syntheticUpdate ei tdc target desired queue).isSome ↔
      target = 0 ∧ desired = 0 ∧ queue.isSome) ∧
    (∀ n, queue = some n → target = 0 → desired = 0 →
      syntheticUpdate ei tdc target desired queue = some (ei, 0, n, tdc)) := by
  constructor
  · unfold syntheticUpdate
    split
    · simp_all
    · simp_all
  · intro n hq ht hd
    subst ht hd hq
    simp [syntheticUpdate]

/-- Witness for `c9_amended` at a concrete profile (queue length 3). -/
theorem c9_amended_witness :
    ((syntheticUpdate 1 1 0 0 (some 3)).isSome ↔
      (0 = 0 ∧ 0 = 0 ∧ (some 3 : Option ℕ).isSome)) ∧
    syntheticUpdate 1 1 0 0 (some 3) = some (1, 0, 3, 1) :=
  ⟨(c9_amended 1 1 0 0 (some 3)).1, (c9_amended 1 1 0 0 (some 3)).2 3 rfl rfl rfl⟩

/-- Claim C6 (counterexample): with one profile whose `min_instances`
exceeds its `desired_instances` (minimum 1, desired 0) the allocator is
not idempotent — the second back-to-back tick, with no external change,
issues two `set_target` writes (phase 1 shrinks to 0, phase 2 raises back
to 1). -/
theorem c6_counterexample :
    (updateScaling 1 [cexProfile] (updateScaling 1 [cexProfile] cexCtrl).1).2 ≠ [] := by
  decide

/-- Claim C10: `update` divides the observed backlog by the configured
backlog reference with no guard — every profile constructed with backlog
reference 0 makes any `update` call raise `ZeroDivisionError` — while for
a positive backlog reference (and the constructor-pinned nonzero
`target_duty_cycle`) the computation is total: the error branches are
unreachable. -/
theorem c10_backlog_reference_guard :
    (∀ name minI maxI growth shrink now delta inst bl dc,
      (ServiceProfile.init name minI maxI growth shrink 0).update now delta inst bl dc
        = .error .zeroDivisionError) ∧
    (∀ p : ServiceProfile, 0 < p.backlogRef → p.targetDutyCycle ≠ 0 →
      ∀ now delta inst bl dc, (p.update now delta inst bl dc).isOk = true) := by
  constructor
  · intro name minI maxI growth shrink now delta inst bl dc
    simp [ServiceProfile.update, ServiceProfile.init]
  · intro p href htdc now delta inst bl dc
    have h0 : ¬ p.backlogRef = 0 := by omega
    have hq : ¬ ((bl : ℝ) / (p.backlogRef : ℝ)) < 0 := by
      refine not_lt.mpr (div_nonneg (Nat.cast_nonneg bl) ?_)
      exact_mod_cast href.le
    unfold ServiceProfile.update
    rw [if_neg h0, if_neg hq, if_neg htdc]
    rfl

/-- Witness for `c10_backlog_reference_guard`: a profile built with
backlog reference 0 errors, one built with reference 500 succeeds. -/
theorem c10_witness :
    (ServiceProfile.init svcName 0 none 600 none 0).update 0 0 0 0 0
      = .error .zeroDivisionError ∧
    ((ServiceProfile.init svcName 0 none 600 none 500).update 0 0 0 0 0).isOk = true := by
  refine ⟨c10_backlog_reference_guard.1 svcName 0 none 600 none 0 0 0 0 0, ?_⟩
  refine c10_backlog_reference_guard.2 _ ?_ ?_ 0 0 0 0 0
  · simp [ServiceProfile.init]
  · norm_num [ServiceProfile.init]

/-! ### Phase-2 helper lemmas -/

/-- Phase 2 never lowers a target. -/
theorem phase2_targets_mono (profiles : List AllocProfile) :
    ∀ ctrl targets s, targets s ≤ (phase2 profiles ctrl targets).targets s := by
  induction profiles with
  | nil => intro ctrl targets s; exact le_rfl
  | cons q rest ih =>
    intro ctrl targets s
    unfold phase2
    split
    · refine le_trans ?_ (ih _ _ s)
      unfold updT
      split
      · next hs => subst hs; omega
      · exact le_rfl
    · exact ih _ _ s

/-- Phase 2 does not touch targets outside the profile list. -/
theorem phase2_targets_notin (profiles : List AllocProfile) :
    ∀ ctrl targets s, s ∉ profiles.map AllocProfile.name →
      (phase2 profiles ctrl targets).targets s = targets s := by
  induction profiles with
  | nil => intro ctrl targets s _; rfl
  | cons q rest ih =>
    intro ctrl targets s hs
    simp only [List.map_cons, List.mem_cons] at hs
    push_neg at hs
    unfold phase2
    split
    · rw [ih _ _ s hs.2]
      unfold updT
      rw [if_neg hs.1]
    · exact ih _ _ s hs.2

/-- On its own profile, phase 2 leaves exactly `max (old target)
min_instances` (profile names assumed distinct, as dict keys are). -/
theorem phase2_targets_eq (profiles : List AllocProfile)
    (hnd : (profiles.map AllocProfile.name).Nodup) :
    ∀ ctrl targets, ∀ p ∈ profiles,
      (phase2 profiles ctrl targets).targets p.name
        = max (targets p.name) p.minInstances := by
  induction profiles with
  | nil => intro ctrl targets p hp; cases hp
  | cons q rest ih =>
    intro ctrl targets p hp
    simp only [List.map_cons, List.nodup_cons] at hnd
    rcases List.mem_cons.mp hp with hpq | hpr
    · subst hpq
      unfold phase2
      split
      · next hlt =>
        rw [phase2_targets_notin rest _ _ _ hnd.1]
        unfold updT
        rw [if_pos rfl]
        omega
      · next hge =>
        rw [phase2_targets_notin rest _ _ _ hnd.1]
        omega
    · have hne : p.name ≠ q.name := by
        intro h
        exact hnd.1 (h ▸ List.mem_map_of_mem AllocProfile.name hpr)
      unfold phase2
      split
      · rw [ih hnd.2 _ _ p hpr]
        unfold updT
        rw [if_neg hne]
      · exact ih hnd.2 _ _ p hpr

/-- Claim C7: allocator phase 2 never reduces any entry of the targets
map, and (for the distinct profile names of the profiles dict) each
profile's entry afterwards is `max (old value) min_instances` — entries
below `min_instances` are raised exactly to it, others are untouched. -/
theorem c7_phase2_floor (profiles : List AllocProfile) (ctrl : Controller)
    (targets : Targets) (hnd : (profiles.map AllocProfile.name).Nodup) :
    (∀ s, targets s ≤ (phase2 profiles ctrl targets).targets s) ∧
    (∀ p ∈ profiles,
      (phase2 profiles ctrl targets).targets p.name
        = max (targets p.name) p.minInstances) :=
  ⟨phase2_targets_mono profiles ctrl targets,
    phase2_targets_eq profiles hnd ctrl targets⟩

/-- A second allocator profile, wanting two replicas with no minimum. -/
def profB : AllocProfile :=
  { name := svcB, desiredInstances := 2, minInstances := 0, cpu := 1, ram := 1024 }

/-- Witness for `c7_phase2_floor`: a two-profile instance where one entry
is below its minimum (raised to it) and the other is not (unchanged). -/
theorem c7_phase2_floor_witness :
    (∀ s, cexCtrl.target s
      ≤ (phase2 [cexProfile, profB] cexCtrl cexCtrl.target).targets s) ∧
    (∀ p ∈ [cexProfile, profB],
      (phase2 [cexProfile, profB] cexCtrl cexCtrl.target).targets p.name
        = max (cexCtrl.target p.name) p.minInstances) :=
  c7_phase2_floor _ cexCtrl cexCtrl.target (by decide)

/-! ### Phase-3 helper lemmas -/

/-- Membership in `trim` gives candidacy and feasibility. -/
theorem mem_trim {targets : Targets} {fc fm : ℚ} {prof : List AllocProfile}
    {p : AllocProfile} (hp : p ∈ trim targets fc fm prof) :
    p ∈ prof ∧ targets p.name < p.desiredInstances ∧ p.cpu ≤ fc ∧ p.ram ≤ fm := by
  unfold trim at hp
  have h2 := List.of_mem_filter hp
  have hp1 := List.mem_of_mem_filter hp
  have h1 := List.of_mem_filter hp1
  have hp0 := List.mem_of_mem_filter hp1
  simp only [decide_eq_true_eq] at h1 h2
  exact ⟨hp0, h1, h2.1, h2.2⟩

/-- The phase-3 loop only ever grants a replica that fits in the free
resources remaining at the moment of the grant, and debits the pool by
exactly the granted costs. -/
theorem phase3Loop_spec (ctrl : Controller) :
    ∀ fuel current targets fc fm grants,
      (∀ p ∈ current, p.cpu ≤ fc ∧ p.ram ≤ fm) →
      ∃ g, (phase3Loop ctrl fuel current targets fc fm grants).grants = grants ++ g
        ∧ GrantsFeasible fc fm g
        ∧ (phase3Loop ctrl fuel current targets fc fm grants).freeCpu
            = fc - (g.map Prod.fst).sum
        ∧ (phase3Loop ctrl fuel current targets fc fm grants).freeMemory
            = fm - (g.map Prod.snd).sum := by
  intro fuel
  induction fuel with
  | zero =>
    intro current targets fc fm grants _
    refine ⟨[], ?_⟩
    cases current <;>
      simp [phase3Loop, GrantsFeasible]
  | succ fuel ih =>
    intro current targets fc fm grants hcur
    cases current with
    | nil =>
      refine ⟨[], ?_⟩
      simp [phase3Loop, GrantsFeasible]
    | cons c cs =>
      rw [phase3Loop]
      cases hs : (c :: cs).mergeSort
          (fun a b => decide (ctrl.target a.name ≤ ctrl.target b.name)) with
      | nil =>
        refine ⟨[], ?_⟩
        simp [GrantsFeasible]
      | cons h t =>
        have hmem : h ∈ c :: cs := by
          refine (List.mergeSort_perm (c :: cs)
            (fun a b => decide (ctrl.target a.name ≤ ctrl.target b.name))).subset ?_
          rw [hs]; exact List.mem_cons_self h t
        have hfit := hcur h hmem
        have hcur1 : ∀ p ∈ trim (updT targets h.name (targets h.name + 1))
            (fc - h.cpu) (fm - h.ram) (h :: t), p.cpu ≤ fc - h.cpu ∧ p.ram ≤ fm - h.ram :=
          fun p hp => (mem_trim hp).2.2
        obtain ⟨g, hg, hfeas, hfc, hfm⟩ :=
          ih (trim (updT targets h.name (targets h.name + 1))
              (fc - h.cpu) (fm - h.ram) (h :: t))
            (updT targets h.name (targets h.name + 1)) (fc - h.cpu) (fm - h.ram)
            (grants ++ [(h.cpu, h.ram)]) hcur1
        refine ⟨(h.cpu, h.ram) :: g, ?_, ?_, ?_, ?_⟩
        · simpa using hg
        · exact ⟨hfit.1, hfit.2, hfeas⟩
        · rw [hfc]; simp; ring
        · rw [hfm]; simp; ring

/-- Stepwise-feasible grants sum to at most the nonnegative part of the
initial pool. -/
theorem grantsFeasible_sum_le :
    ∀ (g : List (ℚ × ℚ)) (fc fm : ℚ), GrantsFeasible fc fm g →
      (g.map Prod.fst).sum ≤ max fc 0 ∧ (g.map Prod.snd).sum ≤ max fm 0 := by
  intro g
  induction g with
  | nil => intro fc fm _; simp
  | cons x g ih =>
    intro fc fm hf
    obtain ⟨h1, h2, hrest⟩ := hf
    obtain ⟨ihc, ihm⟩ := ih _ _ hrest
    constructor
    · simp only [List.map_cons, List.sum_cons]
      rcases le_or_lt 0 (fc - x.1) with hc | hc
      · have : max (fc - x.1) 0 = fc - x.1 := max_eq_left hc
        rw [this] at ihc
        have : fc ≤ max fc 0 := le_max_left fc 0
        linarith
      · have : max (fc - x.1) 0 = 0 := max_eq_right hc.le
        rw [this] at ihc
        have : fc ≤ max fc 0 := le_max_left fc 0
        linarith
    · simp only [List.map_cons, List.sum_cons]
      rcases le_or_lt 0 (fm - x.2) with hm | hm
      · have : max (fm - x.2) 0 = fm - x.2 := max_eq_left hm
        rw [this] at ihm
        have : fm ≤ max fm 0 := le_max_left fm 0
        linarith
      · have : max (fm - x.2) 0 = 0 := max_eq_right hm.le
        rw [this] at ihm
        have : fm ≤ max fm 0 := le_max_left fm 0
        linarith

/-- Claim C5: within one allocator tick, every phase-3 grant fits in the
free CPU/RAM remaining at the moment it is made (comparisons by `≤`, over
rationals, so fractional CPU is legal), and the grants in total consume at
most the `free_cpu`/`free_memory` read from the controller at the start of
phase 3. -/
theorem c5_phase3_budget (fuel : ℕ) (profiles : List AllocProfile)
    (ctrl : Controller) (targets : Targets)
    (hfc : 0 ≤ ctrl.freeCpu) (hfm : 0 ≤ ctrl.freeMemory) :
    GrantsFeasible ctrl.freeCpu ctrl.freeMemory
      (phase3 fuel profiles ctrl targets).grants ∧
    ((phase3 fuel profiles ctrl targets).grants.map Prod.fst).sum ≤ ctrl.freeCpu ∧
    ((phase3 fuel profiles ctrl targets).grants.map Prod.snd).sum ≤ ctrl.freeMemory := by
  have hcur : ∀ p ∈ trim targets ctrl.freeCpu ctrl.freeMemory profiles,
      p.cpu ≤ ctrl.freeCpu ∧ p.ram ≤ ctrl.freeMemory :=
    fun p hp => (mem_trim hp).2.2
  obtain ⟨g, hg, hfeas, _, _⟩ :=
    phase3Loop_spec ctrl fuel (trim targets ctrl.freeCpu ctrl.freeMemory profiles)
      targets ctrl.freeCpu ctrl.freeMemory [] hcur
  have hg' : (phase3 fuel profiles ctrl targets).grants = g := by
    unfold phase3; simpa using hg
  obtain ⟨hc, hm⟩ := grantsFeasible_sum_le g _ _ hfeas
  rw [max_eq_left hfc] at hc
  rw [max_eq_left hfm] at hm
  rw [hg']
  exact ⟨hfeas, hc, hm⟩

/-- Witness for `c5_phase3_budget`: a concrete tick (one candidate profile,
pool 4 CPU / 8192 MB). -/
theorem c5_phase3_budget_witness :
    GrantsFeasible (4 : ℚ) (8192 : ℚ)
      (phase3 3 [profB] ⟨fun _ => 0, 4, 8192⟩ (fun _ => 0)).grants ∧
    ((phase3 3 [profB] ⟨fun _ => 0, 4, 8192⟩ (fun _ => 0)).grants.map Prod.fst).sum
      ≤ (4 : ℚ) ∧
    ((phase3 3 [profB] ⟨fun _ => 0, 4, 8192⟩ (fun _ => 0)).grants.map Prod.snd).sum
      ≤ (8192 : ℚ) :=
  c5_phase3_budget 3 [profB] ⟨fun _ => 0, 4, 8192⟩ (fun _ => 0)
    (by norm_num) (by norm_num)

set_option maxHeartbeats 1600000 in
/-- Claim C1 (amended): after any successful `update` call whose inputs
satisfy `delta ≥ 0`, `duty_cycle ∈ [0,1]` and — the amendment the
counterexample forces — whose effective minimum
`max(min_instances_floor, 1 if backlog > 0 else 0)` does not exceed the
re-derived maximum `min(max_instances_cap, instances + 2)`, the profile
satisfies `min_instances ≤ desired_instances ≤ max_instances` and
`desired_instances = min_instances → pressure ≥ 0`.  (This holds after
every call of any sequence of such calls, since the profile before the
call is arbitrary here.) -/
theorem c1_amended (p : ServiceProfile) (now delta : ℝ) (inst bl : ℕ) (dc : ℝ)
    (hdelta : 0 ≤ delta) (hdc0 : 0 ≤ dc) (hdc1 : dc ≤ 1)
    (hminmax : max p.minInstancesFloor (if bl = 0 then 0 else 1)
      ≤ maxInstancesDerived p.maxInstancesCap inst) :
    invariantAfter (p.update now delta inst bl dc) := by
  intro q hq
  unfold ServiceProfile.update at hq
  split_ifs at hminmax hq
  all_goals
    generalize p.pressure + delta * Real.sqrt ((bl : ℝ) / (p.backlogRef : ℝ))
      - delta * (p.targetDutyCycle - dc) / p.targetDutyCycle = PR0 at hq
  all_goals simp only [Except.ok.injEq] at hq
  all_goals subst hq
  all_goals unfold profileInvariant ServiceProfile.maxInstances
  all_goals refine ⟨?_, ?_, ?_⟩
  all_goals dsimp only
  all_goals try (split_ifs <;> omega)
  all_goals split_ifs
  all_goals intro hd
  all_goals first
    | exact le_refl 0
    | exact le_max_left 0 _
    | exact absurd hd (by assumption)

/-- A runtime profile state whose configured floor (5) exceeds the derived
maximum (`running_instances + 2 = 2` with nothing running), with enough
accumulated pressure to fire the growth threshold on the next update. -/
noncomputable def overFloorProfile : ServiceProfile :=
  { name := svcName
    minInstancesFloor := 5
    minInstances := 5
    maxInstancesCap := none
    desiredInstances := 0
    runningInstances := 0
    pressure := 600
    growthThreshold := 600
    shrinkThreshold := -300
    leakRate := 0.1
    backlogRef := 500
    queueLength := 0
    dutyCycle := 0
    lastUpdate := 0
    targetDutyCycle := 0.9 }

/-- Evaluation of one `update(delta=0, instances=0, backlog=0,
duty_cycle=0.9)` call on `overFloorProfile`: the growth step fires and
caps `desired_instances` at the derived maximum 2, below the effective
minimum 5. -/
theorem overFloorProfile_update_eval :
    overFloorProfile.update 0 0 0 0 0.9 = .ok
      { overFloorProfile with
        lastUpdate := 0
        runningInstances := 0
        queueLength := 0
        dutyCycle := 0.9
        minInstances := 5
        desiredInstances := 2
        pressure := 0 } := by
  unfold ServiceProfile.update overFloorProfile
  rw [if_neg (by norm_num), if_neg (by norm_num), if_neg (by norm_num)]
  simp only [Except.ok.injEq]
  dsimp only [maxInstancesDerived]
  norm_num

/-- Claim C1 (counterexample): the invariant fails as stated — on
`overFloorProfile`, one `update` call with `delta = 0 ≥ 0`,
`backlog = 0 ≥ 0` and `duty_cycle = 0.9 ∈ [0,1]` leaves
`min_instances = 5 > desired_instances = 2`. -/
theorem c1_counterexample :
    ¬ invariantAfter (overFloorProfile.update 0 0 0 0 0.9) := by
  intro h
  have h2 := h _ overFloorProfile_update_eval
  unfold profileInvariant at h2
  obtain ⟨h1, -, -⟩ := h2
  exact absurd h1 (by decide)

/-- Witness for `c1_amended` at a concrete profile and call. -/
theorem c1_amended_witness :
    invariantAfter ((ServiceProfile.init svcName 0 none 600 none 500).update 0 0 0 0 0.9) :=
  c1_amended _ 0 0 0 0 0.9 (le_refl 0) (by norm_num) (by norm_num)
    (by simp [ServiceProfile.init, maxInstancesDerived])

/-! ### Idle-update helper lemmas (for the pressure-decay claim) -/

/-- One idle `update` call (`backlog = 0`, `duty_cycle =
target_duty_cycle`) succeeds, preserves the configuration fields, and
shrinks `|pressure|` by the leak `min(leak_rate·delta, |pressure|)`. -/
theorem update_idle_step (q : ServiceProfile) (d : ℝ) (hd : 0 ≤ d)
    (hlr : 0 ≤ q.leakRate) (href : q.backlogRef ≠ 0) (htdc : q.targetDutyCycle ≠ 0) :
    ∃ r, q.update 0 d q.minInstances 0 q.targetDutyCycle = .ok r ∧
      r.backlogRef = q.backlogRef ∧ r.targetDutyCycle = q.targetDutyCycle ∧
      r.leakRate = q.leakRate ∧
      |r.pressure| ≤ max 0 (|q.pressure| - q.leakRate * d) := by
  have hq0 : ¬ (((0 : ℕ) : ℝ) / (q.backlogRef : ℝ) < 0) := by simp
  have hkey : |q.pressure| - min (q.leakRate * d) |q.pressure|
      = max 0 (|q.pressure| - q.leakRate * d) := by
    rcases le_total (q.leakRate * d) |q.pressure| with h | h
    · rw [min_eq_left h, max_eq_right (sub_nonneg.mpr h)]
    · rw [min_eq_right h, sub_self, max_eq_left (sub_nonpos.mpr h)]
  have hM : 0 ≤ max 0 (|q.pressure| - q.leakRate * d) := le_max_left 0 _
  unfold ServiceProfile.update
  rw [if_neg href, if_neg hq0, if_neg htdc]
  refine ⟨_, rfl, rfl, rfl, rfl, ?_⟩
  simp only [Nat.cast_zero, zero_div, Real.sqrt_zero, mul_zero, sub_self, sub_zero,
    add_zero]
  rw [hkey]
  split_ifs
  all_goals
    simp only [abs_neg, max_eq_right hM, max_eq_left (neg_nonpos.mpr hM),
      abs_of_nonneg hM, abs_zero]
  all_goals first
    | exact le_rfl
    | exact hM

/-- `max 0` interacts with a further nonnegative debit. -/
theorem max0_sub_le (a b : ℝ) (hb : 0 ≤ b) :
    max 0 (max 0 a - b) ≤ max 0 (a - b) := by
  rcases le_or_lt 0 a with h | h
  · rw [max_eq_right h]
  · rw [max_eq_left h.le]
    rw [zero_sub, max_eq_left (neg_nonpos.mpr hb)]
    exact le_max_left 0 _

/-- A whole idle-update run succeeds, preserves the configuration fields,
and shrinks `|pressure|` by at least `leak_rate` times the total elapsed
`delta` (down to zero). -/
theorem updateIdleFold_spec (l : List ℝ) :
    ∀ p : ServiceProfile, (∀ d ∈ l, 0 ≤ d) → p.backlogRef ≠ 0 →
      p.targetDutyCycle ≠ 0 → 0 ≤ p.leakRate →
      ∃ q, updateIdleFold p l = .ok q ∧ q.backlogRef = p.backlogRef ∧
        q.targetDutyCycle = p.targetDutyCycle ∧ q.leakRate = p.leakRate ∧
        |q.pressure| ≤ max 0 (|p.pressure| - p.leakRate * l.sum) := by
  induction l with
  | nil =>
    intro p _ _ _ _
    refine ⟨p, rfl, rfl, rfl, rfl, ?_⟩
    simp
  | cons d ds ih =>
    intro p hd href htdc hlr
    obtain ⟨r, hstep, hr1, hr2, hr3, hrb⟩ :=
      update_idle_step p d (hd d (List.mem_cons_self d ds)) hlr href htdc
    obtain ⟨q, hfold, hq1, hq2, hq3, hqb⟩ :=
      ih r (fun x hx => hd x (List.mem_cons_of_mem d hx))
        (hr1 ▸ href) (hr2 ▸ htdc) (hr3 ▸ hlr)
    refine ⟨q, ?_, hq1.trans hr1, hq2.trans hr2, hq3.trans hr3, ?_⟩
    · rw [updateIdleFold, hstep]
      exact hfold
    · have hs : 0 ≤ ds.sum := List.sum_nonneg fun x hx => hd x (List.mem_cons_of_mem d hx)
      have hls : 0 ≤ p.leakRate * ds.sum := mul_nonneg hlr hs
      rw [hr3] at hqb
      have h1 : max 0 (|r.pressure| - p.leakRate * ds.sum)
          ≤ max 0 (max 0 (|p.pressure| - p.leakRate * d) - p.leakRate * ds.sum) :=
        max_le_max le_rfl (sub_le_sub_right hrb _)
      have h2 := max0_sub_le (|p.pressure| - p.leakRate * d) (p.leakRate * ds.sum) hls
      have h3 : |p.pressure| - p.leakRate * d - p.leakRate * ds.sum
          = |p.pressure| - p.leakRate * (d :: ds).sum := by
        rw [List.sum_cons, mul_add]; ring
      calc |q.pressure| ≤ max 0 (|r.pressure| - p.leakRate * ds.sum) := hqb
        _ ≤ max 0 (max 0 (|p.pressure| - p.leakRate * d) - p.leakRate * ds.sum) := h1
        _ ≤ max 0 (|p.pressure| - p.leakRate * d - p.leakRate * ds.sum) := h2
        _ = max 0 (|p.pressure| - p.leakRate * (d :: ds).sum) := by rw [h3]

/-- Splitting an idle-update run at a successful prefix. -/
theorem updateIdleFold_append (l1 l2 : List ℝ) :
    ∀ p q : ServiceProfile, updateIdleFold p l1 = .ok q →
      updateIdleFold p (l1 ++ l2) = updateIdleFold q l2 := by
  induction l1 with
  | nil =>
    intro p q h
    injection h with h
    subst h
    rfl
  | cons d ds ih =>
    intro p q h
    rw [updateIdleFold] at h
    rw [List.cons_append, updateIdleFold]
    cases hu : p.update 0 d p.minInstances 0 p.targetDutyCycle with
    | error e => rw [hu] at h; exact absurd h (by simp)
    | ok r => rw [hu] at h; exact ih r q h

/-- Claim C8: starting from any profile (nonzero backlog reference and
duty cycle, nonnegative leak rate — all pinned by the constructor), a run
of idle `update` calls (`backlog = 0`, `duty_cycle = target_duty_cycle`,
`instances = min_instances`) with nonnegative deltas succeeds, and for
every split of the run, `|pressure|` does not increase across the suffix
and decays by at least `leak_rate` times the suffix's total delta —
reaching exactly 0 once the cumulative delta is `|pressure|/leak_rate`. -/
theorem c8_idle_pressure_decay (p : ServiceProfile)
    (href : p.backlogRef ≠ 0) (htdc : p.targetDutyCycle ≠ 0) (hlr : 0 ≤ p.leakRate)
    (l1 l2 : List ℝ) (hpos : ∀ d ∈ l1 ++ l2, 0 ≤ d) :
    ∃ q1 q2, updateIdleFold p l1 = .ok q1 ∧ updateIdleFold p (l1 ++ l2) = .ok q2 ∧
      |q2.pressure| ≤ |q1.pressure| ∧
      |q2.pressure| ≤ max 0 (|q1.pressure| - p.leakRate * l2.sum) := by
  have hpos1 : ∀ d ∈ l1, 0 ≤ d := fun d hd => hpos d (List.mem_append_left l2 hd)
  have hpos2 : ∀ d ∈ l2, 0 ≤ d := fun d hd => hpos d (List.mem_append_right l1 hd)
  obtain ⟨q1, hf1, hb1, ht1, hl1, _⟩ := updateIdleFold_spec l1 p hpos1 href htdc hlr
  obtain ⟨q2, hf2, _, _, _, hq2b⟩ :=
    updateIdleFold_spec l2 q1 hpos2 (hb1 ▸ href) (ht1 ▸ htdc) (hl1 ▸ hlr)
  rw [hl1] at hq2b
  refine ⟨q1, q2, hf1, ?_, ?_, hq2b⟩
  · rw [updateIdleFold_append l1 l2 p q1 hf1]
    exact hf2
  · have hs : 0 ≤ p.leakRate * l2.sum :=
      mul_nonneg hlr (List.sum_nonneg hpos2)
    refine hq2b.trans ?_
    refine (max_le_max le_rfl (sub_le_self _ hs)).trans ?_
    rw [max_eq_right (abs_nonneg _)]

/-- Witness for `c8_idle_pressure_decay`: the default constructed profile,
one-step prefix and one-step suffix. -/
theorem c8_idle_pressure_decay_witness :
    ∃ q1 q2, updateIdleFold (ServiceProfile.init svcName 0 none 600 none 500) [1] = .ok q1 ∧
      updateIdleFold (ServiceProfile.init svcName 0 none 600 none 500) ([1] ++ [2]) = .ok q2 ∧
      |q2.pressure| ≤ |q1.pressure| ∧
      |q2.pressure| ≤ max 0 (|q1.pressure|
        - (ServiceProfile.init svcName 0 none 600 none 500).leakRate * ([2] : List ℝ).sum) :=
  c8_idle_pressure_decay (ServiceProfile.init svcName 0 none 600 none 500)
    (by simp [ServiceProfile.init]) (by norm_num [ServiceProfile.init])
    (by norm_num [ServiceProfile.init]) [1] [2]
    (by intro d hd; simp at hd; rcases hd with h | h <;> simp [h])

/-! ### Allocator helper lemmas for the idempotence claim -/

/-- A profile the phase-3 loop can no longer grow: its target already
meets its desire, or a single replica no longer fits the free pool. -/
def Infeasible (p : AllocProfile) (t : Targets) (fc fm : ℚ) : Prop :=
  p.desiredInstances ≤ t p.name ∨ fc < p.cpu ∨ fm < p.ram

/-- Infeasibility persists as targets grow and the pool shrinks. -/
theorem Infeasible.mono {p : AllocProfile} {t t' : Targets} {fc fc' fm fm' : ℚ}
    (h : Infeasible p t fc fm) (ht : ∀ s, t s ≤ t' s) (hfc : fc' ≤ fc) (hfm : fm' ≤ fm) :
    Infeasible p t' fc' fm' := by
  rcases h with h | h | h
  · exact Or.inl (h.trans (ht p.name))
  · exact Or.inr (Or.inl (lt_of_le_of_lt hfc h))
  · exact Or.inr (Or.inr (lt_of_le_of_lt hfm h))

/-- Characterisation of `trim` membership. -/
theorem mem_trim_iff {targets : Targets} {fc fm : ℚ} {prof : List AllocProfile}
    {p : AllocProfile} :
    p ∈ trim targets fc fm prof ↔
      p ∈ prof ∧ targets p.name < p.desiredInstances ∧ p.cpu ≤ fc ∧ p.ram ≤ fm := by
  simp only [trim, List.mem_filter, decide_eq_true_eq]
  tauto

/-- `trim` keeps a sublist of its input. -/
theorem trim_sublist (targets : Targets) (fc fm : ℚ) (prof : List AllocProfile) :
    (trim targets fc fm prof).Sublist prof :=
  (List.filter_sublist _).trans (List.filter_sublist _)

/-- A member of the input dropped by `trim` is infeasible. -/
theorem not_mem_trim {targets : Targets} {fc fm : ℚ} {prof : List AllocProfile}
    {p : AllocProfile} (hp : p ∈ prof) (hnp : p ∉ trim targets fc fm prof) :
    Infeasible p targets fc fm := by
  by_contra h
  unfold Infeasible at h
  push_neg at h
  exact hnp (mem_trim_iff.mpr ⟨hp, h.1, h.2.1, h.2.2⟩)

/-- `trim` of an all-infeasible list is empty. -/
theorem trim_eq_nil {targets : Targets} {fc fm : ℚ} {prof : List AllocProfile}
    (h : ∀ p ∈ prof, Infeasible p targets fc fm) :
    trim targets fc fm prof = [] := by
  rw [List.eq_nil_iff_forall_not_mem]
  intro p hp
  obtain ⟨hmem, h1, h2, h3⟩ := mem_trim_iff.mp hp
  rcases h p hmem with hh | hh | hh
  · omega
  · exact absurd h2 (not_le.mpr hh)
  · exact absurd h3 (not_le.mpr hh)

/-- Phase 1 does not touch targets outside the profile list. -/
theorem phase1_targets_notin (profiles : List AllocProfile) :
    ∀ ctrl targets s, s ∉ profiles.map AllocProfile.name →
      (phase1 profiles ctrl targets).targets s = targets s := by
  induction profiles with
  | nil => intro ctrl targets s _; rfl
  | cons q rest ih =>
    intro ctrl targets s hs
    simp only [List.map_cons, List.mem_cons] at hs
    push_neg at hs
    unfold phase1
    split
    · rw [ih _ _ s hs.2]
      unfold updT
      rw [if_neg hs.1]
    · exact ih _ _ s hs.2

/-- On its own profile, phase 1 leaves exactly `min (old target) desired`
(profile names distinct). -/
theorem phase1_targets_eq (profiles : List AllocProfile)
    (hnd : (profiles.map AllocProfile.name).Nodup) :
    ∀ ctrl targets, ∀ p ∈ profiles,
      (phase1 profiles ctrl targets).targets p.name
        = min (targets p.name) p.desiredInstances := by
  induction profiles with
  | nil => intro ctrl targets p hp; cases hp
  | cons q rest ih =>
    intro ctrl targets p hp
    simp only [List.map_cons, List.nodup_cons] at hnd
    rcases List.mem_cons.mp hp with hpq | hpr
    · subst hpq
      unfold phase1
      split
      · next hlt =>
        rw [phase1_targets_notin rest _ _ _ hnd.1]
        unfold updT
        rw [if_pos rfl]
        omega
      · next hge =>
        rw [phase1_targets_notin rest _ _ _ hnd.1]
        omega
    · have hne : p.name ≠ q.name := by
        intro h
        exact hnd.1 (h ▸ List.mem_map_of_mem AllocProfile.name hpr)
      unfold phase1
      split
      · rw [ih hnd.2 _ _ p hpr]
        unfold updT
        rw [if_neg hne]
      · exact ih hnd.2 _ _ p hpr

/-- Phase 1 is a no-op when no target exceeds its desire. -/
theorem phase1_noop (profiles : List AllocProfile) :
    ∀ ctrl targets, (∀ p ∈ profiles, targets p.name ≤ p.desiredInstances) →
      phase1 profiles ctrl targets = ⟨ctrl, targets, []⟩ := by
  induction profiles with
  | nil => intro ctrl targets _; rfl
  | cons q rest ih =>
    intro ctrl targets h
    unfold phase1
    rw [if_neg (not_lt.mpr (h q (List.mem_cons_self q rest)))]
    exact ih ctrl targets fun p hp => h p (List.mem_cons_of_mem q hp)

/-- Phase 2 is a no-op when every target meets its minimum. -/
theorem phase2_noop (profiles : List AllocProfile) :
    ∀ ctrl targets, (∀ p ∈ profiles, p.minInstances ≤ targets p.name) →
      phase2 profiles ctrl targets = ⟨ctrl, targets, []⟩ := by
  induction profiles with
  | nil => intro ctrl targets _; rfl
  | cons q rest ih =>
    intro ctrl targets h
    unfold phase2
    rw [if_neg (not_lt.mpr (h q (List.mem_cons_self q rest)))]
    exact ih ctrl targets fun p hp => h p (List.mem_cons_of_mem q hp)

/-- Phases keep the written-through controller targets and the local
`targets` dict pointwise equal, provided they start equal. -/
theorem phase1_ctrl_sync (profiles : List AllocProfile) :
    ∀ ctrl targets, (∀ s, ctrl.target s = targets s) →
      ∀ s, (phase1 profiles ctrl targets).ctrl.target s
        = (phase1 profiles ctrl targets).targets s := by
  induction profiles with
  | nil => intro ctrl targets h s; exact h s
  | cons q rest ih =>
    intro ctrl targets h s
    unfold phase1
    split
    · exact ih _ _ (fun x => by unfold Controller.setTarget updT; dsimp only; split <;> simp [h x]) s
    · exact ih _ _ h s

/-- Same for phase 2. -/
theorem phase2_ctrl_sync (profiles : List AllocProfile) :
    ∀ ctrl targets, (∀ s, ctrl.target s = targets s) →
      ∀ s, (phase2 profiles ctrl targets).ctrl.target s
        = (phase2 profiles ctrl targets).targets s := by
  induction profiles with
  | nil => intro ctrl targets h s; exact h s
  | cons q rest ih =>
    intro ctrl targets h s
    unfold phase2
    split
    · exact ih _ _ (fun x => by unfold Controller.setTarget updT; dsimp only; split <;> simp [h x]) s
    · exact ih _ _ h s

/-- The final dispatch leaves untouched any name outside the profiles. -/
theorem finalDispatch_notin (profiles : List AllocProfile) :
    ∀ ctrl targets s, s ∉ profiles.map AllocProfile.name →
      (finalDispatch profiles ctrl targets).1.target s = ctrl.target s := by
  induction profiles with
  | nil => intro ctrl targets s _; rfl
  | cons q rest ih =>
    intro ctrl targets s hs
    simp only [List.map_cons, List.mem_cons] at hs
    push_neg at hs
    unfold finalDispatch
    split
    · exact ih _ _ s hs.2
    · rw [ih _ _ s hs.2]
      unfold Controller.setTarget updT
      dsimp only
      rw [if_neg hs.1]

/-- After the final dispatch the controller holds exactly the computed
targets on every profile name (names distinct). -/
theorem finalDispatch_ctrl (profiles : List AllocProfile)
    (hnd : (profiles.map AllocProfile.name).Nodup) :
    ∀ ctrl targets, ∀ p ∈ profiles,
      (finalDispatch profiles ctrl targets).1.target p.name = targets p.name := by
  induction profiles with
  | nil => intro ctrl targets p hp; cases hp
  | cons q rest ih =>
    intro ctrl targets p hp
    simp only [List.map_cons, List.nodup_cons] at hnd
    rcases List.mem_cons.mp hp with hpq | hpr
    · subst hpq
      unfold finalDispatch
      split
      · next heq =>
        rw [finalDispatch_notin rest _ _ _ hnd.1]
        exact heq.symm
      · rw [finalDispatch_notin rest _ _ _ hnd.1]
        unfold Controller.setTarget updT
        dsimp only
        rw [if_pos rfl]
    · unfold finalDispatch
      split
      · exact ih hnd.2 _ _ p hpr
      · exact ih hnd.2 _ _ p hpr

/-- The final dispatch writes nothing when the controller already agrees
with the computed targets on every profile name. -/
theorem finalDispatch_noop (profiles : List AllocProfile) :
    ∀ ctrl targets, (∀ p ∈ profiles, targets p.name = ctrl.target p.name) →
      finalDispatch profiles ctrl targets = (ctrl, []) := by
  induction profiles with
  | nil => intro ctrl targets _; rfl
  | cons q rest ih =>
    intro ctrl targets h
    unfold finalDispatch
    rw [if_pos (h q (List.mem_cons_self q rest))]
    exact ih ctrl targets fun p hp => h p (List.mem_cons_of_mem q hp)

/-- The phase-3 loop with nothing to do returns its state unchanged. -/
theorem phase3Loop_nil (ctrl : Controller) (fuel : ℕ) (targets : Targets)
    (fc fm : ℚ) (grants : List (ℚ × ℚ)) :
    phase3Loop ctrl fuel [] targets fc fm grants = ⟨targets, fc, fm, grants⟩ := by
  cases fuel <;> rfl

/-- Remaining work of the phase-3 loop: total target shortfall of the
candidate list. -/
def phase3Measure (targets : Targets) (l : List AllocProfile) : ℕ :=
  (l.map fun p => p.desiredInstances - targets p.name).sum

/-- Remaining work shrinks along sublists. -/
theorem phase3Measure_sublist (targets : Targets) {l1 l2 : List AllocProfile}
    (h : l1.Sublist l2) : phase3Measure targets l1 ≤ phase3Measure targets l2 :=
  List.Sublist.sum_le_sum (h.map _) fun a _ => Nat.zero_le a

/-- Remaining work is invariant under permutation. -/
theorem phase3Measure_perm (targets : Targets) {l1 l2 : List AllocProfile}
    (h : l1.Perm l2) : phase3Measure targets l1 = phase3Measure targets l2 :=
  (h.map _).sum_eq

/-- The phase-3 loop, run with enough fuel from a trimmed candidate list:
targets only grow, stay at most the desires, and at the end every profile
is infeasible against the final targets and pool — the loop has genuinely
finished. -/
theorem phase3Loop_run (ctrl : Controller) (profiles : List AllocProfile)
    (hnd : (profiles.map AllocProfile.name).Nodup)
    (hnn : ∀ p ∈ profiles, 0 ≤ p.cpu ∧ 0 ≤ p.ram) :
    ∀ fuel current targets fc fm grants,
      current ⊆ profiles →
      (∀ p ∈ current, targets p.name < p.desiredInstances ∧ p.cpu ≤ fc ∧ p.ram ≤ fm) →
      (∀ p ∈ profiles, targets p.name ≤ p.desiredInstances) →
      (∀ p ∈ profiles, p ∈ current ∨ Infeasible p targets fc fm) →
      (current.map AllocProfile.name).Nodup →
      phase3Measure targets current ≤ fuel →
      (∀ s, targets s ≤ (phase3Loop ctrl fuel current targets fc fm grants).targets s) ∧
      (∀ p ∈ profiles,
        (phase3Loop ctrl fuel current targets fc fm grants).targets p.name
          ≤ p.desiredInstances) ∧
      (∀ p ∈ profiles,
        Infeasible p (phase3Loop ctrl fuel current targets fc fm grants).targets
          (phase3Loop ctrl fuel current targets fc fm grants).freeCpu
          (phase3Loop ctrl fuel current targets fc fm grants).freeMemory) := by
  intro fuel
  induction fuel with
  | zero =>
    intro current targets fc fm grants hsub hcand hdes hcomp hndc hfuel
    have hcur : current = [] := by
      cases current with
      | nil => rfl
      | cons c cs =>
        exfalso
        obtain ⟨hlt, -, -⟩ := hcand c (List.mem_cons_self c cs)
        have hone : 1 ≤ phase3Measure targets (c :: cs) := by
          unfold phase3Measure
          simp only [List.map_cons, List.sum_cons]
          omega
        omega
    subst hcur
    rw [phase3Loop_nil]
    refine ⟨fun s => le_rfl, hdes, fun p hp => ?_⟩
    rcases hcomp p hp with hmem | h
    · cases hmem
    · exact h
  | succ fuel ih =>
    intro current targets fc fm grants hsub hcand hdes hcomp hndc hfuel
    cases current with
    | nil =>
      rw [phase3Loop_nil]
      refine ⟨fun s => le_rfl, hdes, fun p hp => ?_⟩
      rcases hcomp p hp with hmem | h
      · cases hmem
      · exact h
    | cons c cs =>
      rw [phase3Loop]
      have hperm := List.mergeSort_perm (c :: cs)
          (fun a b => decide (ctrl.target a.name ≤ ctrl.target b.name))
      cases hs : (c :: cs).mergeSort
          (fun a b => decide (ctrl.target a.name ≤ ctrl.target b.name)) with
      | nil =>
        rw [hs] at hperm
        exact absurd hperm.length_eq (by simp)
      | cons h t =>
        rw [hs] at hperm
        have hmemh : h ∈ c :: cs := hperm.subset (List.mem_cons_self h t)
        have hhp : h ∈ profiles := hsub hmemh
        obtain ⟨hlt, hcpu, hram⟩ := hcand h hmemh
        obtain ⟨hc0, hr0⟩ := hnn h hhp
        have hfc1 : fc - h.cpu ≤ fc := by linarith
        have hfm1 : fm - h.ram ≤ fm := by linarith
        have hmono1 : ∀ s, targets s ≤ updT targets h.name (targets h.name + 1) s := by
          intro s
          unfold updT
          split
          · next he => rw [he]; omega
          · exact le_rfl
        have hndst : ((h :: t).map AllocProfile.name).Nodup :=
          ((hperm.map AllocProfile.name).nodup_iff).mpr hndc
        have hhnott : ∀ p ∈ t, p.name ≠ h.name := by
          intro p hp heq
          have hx := hndst
          simp only [List.map_cons, List.nodup_cons] at hx
          exact hx.1 (heq ▸ List.mem_map_of_mem AllocProfile.name hp)
        have hsub1 : trim (updT targets h.name (targets h.name + 1))
            (fc - h.cpu) (fm - h.ram) (h :: t) ⊆ profiles := by
          intro x hx
          exact hsub (hperm.subset ((trim_sublist _ _ _ _).subset hx))
        have hcand1 : ∀ p ∈ trim (updT targets h.name (targets h.name + 1))
            (fc - h.cpu) (fm - h.ram) (h :: t),
            updT targets h.name (targets h.name + 1) p.name < p.desiredInstances ∧
            p.cpu ≤ fc - h.cpu ∧ p.ram ≤ fm - h.ram := by
          intro p hp
          obtain ⟨-, h1, h2, h3⟩ := mem_trim_iff.mp hp
          exact ⟨h1, h2, h3⟩
        have hdes1 : ∀ p ∈ profiles,
            updT targets h.name (targets h.name + 1) p.name ≤ p.desiredInstances := by
          intro p hp
          by_cases hpn : p.name = h.name
          · have hph : p = h := List.inj_on_of_nodup_map hnd hp hhp hpn
            rw [hph]
            unfold updT
            rw [if_pos rfl]
            omega
          · unfold updT
            rw [if_neg hpn]
            exact hdes p hp
        have hcomp1 : ∀ p ∈ profiles,
            p ∈ trim (updT targets h.name (targets h.name + 1))
              (fc - h.cpu) (fm - h.ram) (h :: t) ∨
            Infeasible p (updT targets h.name (targets h.name + 1))
              (fc - h.cpu) (fm - h.ram) := by
          intro p hp
          rcases hcomp p hp with hpc | hpi
          · have hpht : p ∈ h :: t := hperm.mem_iff.mpr hpc
            by_cases hmem : p ∈ trim (updT targets h.name (targets h.name + 1))
                (fc - h.cpu) (fm - h.ram) (h :: t)
            · exact Or.inl hmem
            · exact Or.inr (not_mem_trim hpht hmem)
          · exact Or.inr (hpi.mono hmono1 hfc1 hfm1)
        have hndc1 : ((trim (updT targets h.name (targets h.name + 1))
            (fc - h.cpu) (fm - h.ram) (h :: t)).map AllocProfile.name).Nodup :=
          List.Nodup.sublist ((trim_sublist _ _ _ _).map AllocProfile.name) hndst
        have hfuel1 : phase3Measure (updT targets h.name (targets h.name + 1))
            (trim (updT targets h.name (targets h.name + 1))
              (fc - h.cpu) (fm - h.ram) (h :: t)) ≤ fuel := by
          have e1 := phase3Measure_sublist (updT targets h.name (targets h.name + 1))
            (trim_sublist (updT targets h.name (targets h.name + 1))
              (fc - h.cpu) (fm - h.ram) (h :: t))
          have e2 : phase3Measure (updT targets h.name (targets h.name + 1)) (h :: t)
              = (h.desiredInstances - (targets h.name + 1)) + phase3Measure targets t := by
            unfold phase3Measure
            simp only [List.map_cons, List.sum_cons]
            have ha : updT targets h.name (targets h.name + 1) h.name
                = targets h.name + 1 := by
              unfold updT
              rw [if_pos rfl]
            have hb : (t.map fun p =>
                  p.desiredInstances - updT targets h.name (targets h.name + 1) p.name)
                = t.map fun p => p.desiredInstances - targets p.name :=
              List.map_congr_left fun p hp => by
                unfold updT
                rw [if_neg (hhnott p hp)]
            rw [ha, hb]
          have e3 : phase3Measure targets (c :: cs)
              = (h.desiredInstances - targets h.name) + phase3Measure targets t := by
            rw [← phase3Measure_perm targets hperm]
            unfold phase3Measure
            simp only [List.map_cons, List.sum_cons]
          omega
        obtain ⟨m1, m2, m3⟩ := ih
          (trim (updT targets h.name (targets h.name + 1))
            (fc - h.cpu) (fm - h.ram) (h :: t))
          (updT targets h.name (targets h.name + 1)) (fc - h.cpu) (fm - h.ram)
          (grants ++ [(h.cpu, h.ram)]) hsub1 hcand1 hdes1 hcomp1 hndc1 hfuel1
        exact ⟨fun s => (hmono1 s).trans (m1 s), m2, m3⟩

/-- Phase 3, from its real entry point: targets only grow, stay at most
the desires, and afterwards no profile is left feasible. -/
theorem phase3_run (fuel : ℕ) (profiles : List AllocProfile) (ctrl2 : Controller)
    (targets : Targets)
    (hnd : (profiles.map AllocProfile.name).Nodup)
    (hnn : ∀ p ∈ profiles, 0 ≤ p.cpu ∧ 0 ≤ p.ram)
    (hdes : ∀ p ∈ profiles, targets p.name ≤ p.desiredInstances)
    (hfuel : (profiles.map AllocProfile.desiredInstances).sum ≤ fuel) :
    (∀ s, targets s ≤ (phase3 fuel profiles ctrl2 targets).targets s) ∧
    (∀ p ∈ profiles,
      (phase3 fuel profiles ctrl2 targets).targets p.name ≤ p.desiredInstances) ∧
    (∀ p ∈ profiles,
      Infeasible p (phase3 fuel profiles ctrl2 targets).targets
        (phase3 fuel profiles ctrl2 targets).freeCpu
        (phase3 fuel profiles ctrl2 targets).freeMemory) := by
  have hsub : trim targets ctrl2.freeCpu ctrl2.freeMemory profiles ⊆ profiles :=
    (trim_sublist _ _ _ _).subset
  have hcand : ∀ p ∈ trim targets ctrl2.freeCpu ctrl2.freeMemory profiles,
      targets p.name < p.desiredInstances ∧ p.cpu ≤ ctrl2.freeCpu ∧
      p.ram ≤ ctrl2.freeMemory := by
    intro p hp
    obtain ⟨-, a, b, c⟩ := mem_trim_iff.mp hp
    exact ⟨a, b, c⟩
  have hcomp : ∀ p ∈ profiles, p ∈ trim targets ctrl2.freeCpu ctrl2.freeMemory profiles
      ∨ Infeasible p targets ctrl2.freeCpu ctrl2.freeMemory := by
    intro p hp
    by_cases hmem : p ∈ trim targets ctrl2.freeCpu ctrl2.freeMemory profiles
    · exact Or.inl hmem
    · exact Or.inr (not_mem_trim hp hmem)
  have hndc : ((trim targets ctrl2.freeCpu ctrl2.freeMemory profiles).map
      AllocProfile.name).Nodup :=
    List.Nodup.sublist ((trim_sublist _ _ _ _).map _) hnd
  have hfm : phase3Measure targets (trim targets ctrl2.freeCpu ctrl2.freeMemory profiles)
      ≤ fuel :=
    calc phase3Measure targets (trim targets ctrl2.freeCpu ctrl2.freeMemory profiles)
        ≤ phase3Measure targets profiles :=
          phase3Measure_sublist _ (trim_sublist _ _ _ _)
      _ ≤ (profiles.map AllocProfile.desiredInstances).sum := by
          unfold phase3Measure
          exact List.sum_le_sum fun p _ => Nat.sub_le _ _
      _ ≤ fuel := hfuel
  exact phase3Loop_run ctrl2 profiles hnd hnn fuel
    (trim targets ctrl2.freeCpu ctrl2.freeMemory profiles) targets
    ctrl2.freeCpu ctrl2.freeMemory [] hsub hcand hdes hcomp hndc hfm

/-- After phases 1 and 2 every target sits between its profile's minimum
and desire (given sane profiles with `min ≤ desired`). -/
theorem phase12_bounds (profiles : List AllocProfile) (ctrl : Controller)
    (hnd : (profiles.map AllocProfile.name).Nodup)
    (hmd : ∀ p ∈ profiles, p.minInstances ≤ p.desiredInstances) :
    ∀ p ∈ profiles,
      p.minInstances ≤ (phase2 profiles (phase1 profiles ctrl ctrl.target).ctrl
          (phase1 profiles ctrl ctrl.target).targets).targets p.name ∧
      (phase2 profiles (phase1 profiles ctrl ctrl.target).ctrl
          (phase1 profiles ctrl ctrl.target).targets).targets p.name
        ≤ p.desiredInstances := by
  intro p hp
  have h1 := phase1_targets_eq profiles hnd ctrl ctrl.target p hp
  have h2 := phase2_targets_eq profiles hnd (phase1 profiles ctrl ctrl.target).ctrl
    (phase1 profiles ctrl ctrl.target).targets p hp
  have h3 := hmd p hp
  omega

/-- The state one allocator tick leaves behind, for sane profiles: every
profile's controller target lands between its minimum and its desire, and
no profile remains feasible against the remaining free pool. -/
theorem updateScaling_post (fuel : ℕ) (profiles : List AllocProfile) (ctrl : Controller)
    (hnd : (profiles.map AllocProfile.name).Nodup)
    (hmd : ∀ p ∈ profiles, p.minInstances ≤ p.desiredInstances)
    (hnn : ∀ p ∈ profiles, 0 ≤ p.cpu ∧ 0 ≤ p.ram)
    (hfuel : (profiles.map AllocProfile.desiredInstances).sum ≤ fuel) :
    (∀ p ∈ profiles,
      p.minInstances ≤ (updateScaling fuel profiles ctrl).1.target p.name ∧
      (updateScaling fuel profiles ctrl).1.target p.name ≤ p.desiredInstances) ∧
    (∀ p ∈ profiles,
      Infeasible p (updateScaling fuel profiles ctrl).1.target
        (updateScaling fuel profiles ctrl).1.freeCpu
        (updateScaling fuel profiles ctrl).1.freeMemory) := by
  have h12 := phase12_bounds profiles ctrl hnd hmd
  obtain ⟨m1, m2, m3⟩ := phase3_run fuel profiles
    (phase2 profiles (phase1 profiles ctrl ctrl.target).ctrl
      (phase1 profiles ctrl ctrl.target).targets).ctrl
    (phase2 profiles (phase1 profiles ctrl ctrl.target).ctrl
      (phase1 profiles ctrl ctrl.target).targets).targets
    hnd hnn (fun p hp => (h12 p hp).2) hfuel
  have hfd := finalDispatch_ctrl profiles hnd
    (phase2 profiles (phase1 profiles ctrl ctrl.target).ctrl
      (phase1 profiles ctrl ctrl.target).targets).ctrl
    (phase3 fuel profiles
      (phase2 profiles (phase1 profiles ctrl ctrl.target).ctrl
        (phase1 profiles ctrl ctrl.target).targets).ctrl
      (phase2 profiles (phase1 profiles ctrl ctrl.target).ctrl
        (phase1 profiles ctrl ctrl.target).targets).targets).targets
  unfold updateScaling
  dsimp only
  refine ⟨fun p hp => ⟨?_, ?_⟩, fun p hp => ?_⟩
  · rw [hfd p hp]
    exact (h12 p hp).1.trans (m1 p.name)
  · rw [hfd p hp]
    exact m2 p hp
  · rcases m3 p hp with h | h | h
    · exact Or.inl (by rw [hfd p hp]; exact h)
    · exact Or.inr (Or.inl h)
    · exact Or.inr (Or.inr h)

/-- Claim C6 (amended): back-to-back allocator ticks are idempotent for
sane profile sets — distinct names, `min_instances ≤ desired_instances`,
nonnegative per-replica cpu/ram, and enough loop fuel for the first tick —
with no external change between the runs: the second tick issues no
`set_target` writes.  (Without `min ≤ desired` the claim fails, see the
counterexample.) -/
theorem c6_amended (fuel1 fuel2 : ℕ) (profiles : List AllocProfile) (ctrl : Controller)
    (hnd : (profiles.map AllocProfile.name).Nodup)
    (hmd : ∀ p ∈ profiles, p.minInstances ≤ p.desiredInstances)
    (hnn : ∀ p ∈ profiles, 0 ≤ p.cpu ∧ 0 ≤ p.ram)
    (hfuel : (profiles.map AllocProfile.desiredInstances).sum ≤ fuel1) :
    (updateScaling fuel2 profiles (updateScaling fuel1 profiles ctrl).1).2 = [] := by
  obtain ⟨hbounds, hinf⟩ := updateScaling_post fuel1 profiles ctrl hnd hmd hnn hfuel
  have h1 : phase1 profiles (updateScaling fuel1 profiles ctrl).1
      (updateScaling fuel1 profiles ctrl).1.target
      = ⟨(updateScaling fuel1 profiles ctrl).1,
          (updateScaling fuel1 profiles ctrl).1.target, []⟩ :=
    phase1_noop profiles _ _ fun p hp => (hbounds p hp).2
  have h2 : phase2 profiles (updateScaling fuel1 profiles ctrl).1
      (updateScaling fuel1 profiles ctrl).1.target
      = ⟨(updateScaling fuel1 profiles ctrl).1,
          (updateScaling fuel1 profiles ctrl).1.target, []⟩ :=
    phase2_noop profiles _ _ fun p hp => (hbounds p hp).1
  have h3 : trim (updateScaling fuel1 profiles ctrl).1.target
      (updateScaling fuel1 profiles ctrl).1.freeCpu
      (updateScaling fuel1 profiles ctrl).1.freeMemory profiles = [] :=
    trim_eq_nil hinf
  have h4 : finalDispatch profiles (updateScaling fuel1 profiles ctrl).1
      (updateScaling fuel1 profiles ctrl).1.target
      = ((updateScaling fuel1 profiles ctrl).1, []) :=
    finalDispatch_noop profiles _ _ fun p _ => rfl
  conv_lhs =>
    rw [updateScaling]
  rw [h1]
  dsimp only
  rw [h2]
  dsimp only
  unfold phase3
  rw [h3, phase3Loop_nil]
  dsimp only
  rw [h4]
  rfl

/-- A sane allocator profile: one replica required and desired. -/
def saneProfile : AllocProfile :=
  { name := svcA, desiredInstances := 1, minInstances := 1, cpu := 1, ram := 1024 }

/-- Witness for `c6_amended`: one sane profile (min 1, desired 1) scaled
from a zero target; the first tick writes the floor, the second is
silent. -/
theorem c6_amended_witness :
    (updateScaling 1 [saneProfile]
      (updateScaling 1 [saneProfile] ⟨fun _ => 0, 4, 8192⟩).1).2 = [] :=
  c6_amended 1 1 [saneProfile] ⟨fun _ => 0, 4, 8192⟩
    (by decide) (by decide) (by decide) (by decide)

end Scaler
